import Mathlib

/-!
Verification of the user-isolated workout data-access layer of the
lifting-diary application: the identity resolver (`lib/auth.ts`), the
owner-scoped repository helpers (`getUserWorkouts`, `getWorkoutById`,
`createWorkout`, `updateWorkout`, the date-scoped listing), the Zod
validation schemas and the server-action dispatchers
(`createWorkoutAction`, `updateWorkoutAction`).

Timestamps are modelled as integers (milliseconds since the epoch, in
the server's local time zone where a calendar day is concerned).  The
database is a list of `Workout` rows; Drizzle's
`select().where(...).limit(1)` with `result[0] || null` becomes
`(List.filter ...).head?`, and row generation (`defaultRandom` ids,
`defaultNow`/`$onUpdate` timestamps) is passed in explicitly as the
`newId` / `now` parameters.
-/

/-- The resolved identity, as returned by `getCurrentUser` in `lib/auth.ts`:
an object holding the Clerk user id. -/
structure User where
  id : String
deriving DecidableEq

/-- A row of the `workouts` table (`workoutsTable` in the Drizzle schema):
uuid primary key, owning `userId`, `name`, `startedAt`, nullable
`completedAt`, and the storage-maintained `createdAt` / `updatedAt`. -/
structure Workout where
  id : String
  userId : String
  name : String
  startedAt : Int
  completedAt : Option Int
  createdAt : Int
  updatedAt : Int
deriving DecidableEq

/-- `getCurrentUser` from `lib/auth.ts`: reads the ambient Clerk session
(`auth()` yields a `userId` that is a string or null); any falsy value —
no session, or an empty-string id — yields `null`, otherwise the object
`\x7b id: userId \x7d`. -/
def getCurrentUser (authUserId : Option String) : Option User :=
  match authUserId with
  | none => none
  | some uid => if uid == "" then none else some ⟨uid⟩

/-- `getUserWorkouts` from `data/workouts.ts` (as given in the
data-fetching guidelines): resolve the identity, throw `Unauthorized`
when there is none, else select the rows whose `userId` equals the
resolved id. -/
def getUserWorkouts (user : Option User) (db : List Workout) :
    Except String (List Workout) :=
  match user with
  | none => .error "Unauthorized"
  | some u => .ok (db.filter (fun w => w.userId == u.id))

/-- `getWorkoutById` from `data/workouts.ts` (as given in the
data-fetching guidelines): resolve the identity, throw `Unauthorized`
when there is none, else select `where(and(eq(id, workoutId),
eq(userId, user.id))).limit(1)` and return `workout[0] || null`. -/
def getWorkoutById (user : Option User) (db : List Workout)
    (workoutId : String) : Except String (Option Workout) :=
  match user with
  | none => .error "Unauthorized"
  | some u =>
    .ok ((db.filter (fun w => w.id == workoutId && w.userId == u.id)).head?)

/-- The validated create input: the fields of `createWorkoutSchema`
(`name` and `startedAt` only — the schema has no `userId` key). -/
structure CreateInput where
  name : String
  startedAt : Int
deriving DecidableEq

/-- The validated update input: the fields of `updateWorkoutSchema`
(`id` required, `name` and `startedAt` optional). -/
structure UpdateInput where
  id : String
  name : Option String
  startedAt : Option Int
deriving DecidableEq

/-- Modelled from the spec: the repository file `src/data/workouts.ts`
imported by the server actions is not in the tree; `createWorkout`
follows §4.2 (insert with `userId` forced to the resolved identity,
`id`/`createdAt`/`updatedAt` generated by storage, `completedAt` left
null) and the insert pattern of the `createWorkout` example in
`docs/data-mutations.md`. -/
def createWorkout (user : Option User) (db : List Workout)
    (input : CreateInput) (newId : String) (now : Int) :
    Except String Workout × List Workout :=
  match user with
  | none => (.error "Unauthorized", db)
  | some u =>
    let w : Workout :=
      { id := newId, userId := u.id, name := input.name,
        startedAt := input.startedAt, completedAt := none,
        createdAt := now, updatedAt := now }
    (.ok w, db ++ [w])

/-- The partial-update row transform: apply only the provided optional
fields (`if input.name !== undefined`, `if input.startedAt !== undefined`),
while storage's `$onUpdate` on `updatedAt` refreshes it to the current
time. -/
def applyUpdate (w : Workout) (input : UpdateInput) (now : Int) : Workout :=
  { w with
    name := input.name.getD w.name,
    startedAt := input.startedAt.getD w.startedAt,
    updatedAt := now }

/-- Modelled from the spec: the repository file `src/data/workouts.ts` is
not in the tree; `updateWorkout` follows §4.2 and the `updateWorkout`
example in `docs/data-mutations.md` with the field set of
`updateWorkoutSchema`: resolve the identity (`Unauthorized` when none),
ownership-check via `where(and(eq(id), eq(userId))).limit(1)` and throw
`Workout not found or unauthorized` when it finds nothing, else
`update().set(updateData).where(eq(id)).returning()` and return the
first returned row. -/
def updateWorkout (user : Option User) (db : List Workout)
    (input : UpdateInput) (now : Int) :
    Except String Workout × List Workout :=
  match user with
  | none => (.error "Unauthorized", db)
  | some u =>
    match (db.filter (fun w => w.id == input.id && w.userId == u.id)).head? with
    | none => (.error "Workout not found or unauthorized", db)
    | some _ =>
      let db2 := db.map (fun w =>
        if w.id == input.id then applyUpdate w input now else w)
      match (db2.filter (fun w => w.id == input.id)).head? with
      | some w => (.ok w, db2)
      | none => (.error "Workout not found or unauthorized", db2)

/-- Ascending comparison on `startedAt`, the `orderBy` key of the
date-scoped listing. -/
def leStartedAt (a b : Workout) : Bool := a.startedAt ≤ b.startedAt

/-- Milliseconds in a calendar day. -/
def msPerDay : Int := 86400000

/-- Modelled from the spec: the date-scoped listing of
`src/data/workouts.ts` is not in the tree; `listByDate` follows §4.2:
given the local-midnight instant of the requested calendar date, the
window is `start = date at 00:00:00.000` to `end = date at 23:59:59.999`
inclusive on both ends, and the result is the resolved user's rows whose
`startedAt` lies in the window, ordered ascending by `startedAt`
(an empty list, not an error, when nothing matches); `Unauthorized`
when no identity resolves. -/
def listByDate (user : Option User) (db : List Workout) (dayStart : Int) :
    Except String (List Workout) :=
  match user with
  | none => .error "Unauthorized"
  | some u =>
    let dayEnd := dayStart + (msPerDay - 1)
    .ok ((db.filter (fun w =>
      w.userId == u.id && decide (dayStart ≤ w.startedAt) &&
        decide (w.startedAt ≤ dayEnd))).mergeSort leStartedAt)

/-- A field of an untyped payload as Zod sees it: a string, a valid
`Date` (its epoch-milliseconds value), an invalid `Date` (`NaN` time),
or absent. -/
inductive FieldVal where
  | vStr (s : String)
  | vDate (t : Int)
  | vInvalidDate
  | vMissing
deriving DecidableEq

/-- One entry of the `issues` array built by the actions from a
`ZodError`: `path` is `issue.path.join(".")`, `message` the Zod
message. -/
structure Issue where
  path : String
  message : String
deriving DecidableEq

/-- The raw payload of `createWorkoutAction` before validation, keyed by
the two schema fields. -/
structure RawCreatePayload where
  name : FieldVal
  startedAt : FieldVal
deriving DecidableEq

/-- The raw payload of `updateWorkoutAction` before validation, keyed by
the three schema fields. -/
structure RawUpdatePayload where
  id : FieldVal
  name : FieldVal
  startedAt : FieldVal
deriving DecidableEq

/-- Issues produced for the `name` field of `createWorkoutSchema`:
`z.string().min(1, 'Workout name is required').max(255, 'Workout name
must be less than 255 characters')`. -/
def nameIssues : FieldVal → List Issue
  | .vStr s =>
    (if s.length < 1 then [⟨"name", "Workout name is required"⟩] else []) ++
      (if 255 < s.length then
        [⟨"name", "Workout name must be less than 255 characters"⟩] else [])
  | .vMissing => [⟨"name", "Required"⟩]
  | _ => [⟨"name", "Expected string, received date"⟩]

/-- Issues produced for the `startedAt` field: `z.date()` accepts
exactly a valid `Date`. -/
def startedAtIssues : FieldVal → List Issue
  | .vDate _ => []
  | .vInvalidDate => [⟨"startedAt", "Invalid date"⟩]
  | .vMissing => [⟨"startedAt", "Required"⟩]
  | .vStr _ => [⟨"startedAt", "Expected date, received string"⟩]

/-- `createWorkoutSchema.parse`: validate both fields (collecting the
issues of every failing field, `name` before `startedAt` in key order)
and produce the typed input on success. -/
def parseCreate (p : RawCreatePayload) :
    Except (List Issue) CreateInput :=
  match p.name, p.startedAt with
  | .vStr s, .vDate t =>
    let issues := nameIssues (.vStr s) ++ startedAtIssues (.vDate t)
    if issues.isEmpty then .ok ⟨s, t⟩ else .error issues
  | n, st => .error (nameIssues n ++ startedAtIssues st)

/-- Hexadecimal-digit test used by the uuid format check. -/
def isHexDigit (c : Char) : Bool :=
  (decide ('0' ≤ c) && decide (c ≤ '9')) ||
    (decide ('a' ≤ c) && decide (c ≤ 'f')) ||
    (decide ('A' ≤ c) && decide (c ≤ 'F'))

/-- The uuid format accepted by `z.string().uuid(...)`: 36 characters in
the 8-4-4-4-12 hyphenated hexadecimal shape. -/
def isUuid (s : String) : Bool :=
  let cs := s.toList
  cs.length == 36 &&
    (List.range 36).all (fun i =>
      if i == 8 || i == 13 || i == 18 || i == 23 then cs.getD i ' ' == '-'
      else isHexDigit (cs.getD i ' '))

/-- Issues produced for the `id` field of `updateWorkoutSchema`:
`z.string().uuid('Invalid workout ID')`. -/
def idIssues : FieldVal → List Issue
  | .vStr s => if isUuid s then [] else [⟨"id", "Invalid workout ID"⟩]
  | .vMissing => [⟨"id", "Required"⟩]
  | _ => [⟨"id", "Expected string, received date"⟩]

/-- Issues for the optional `name` field of `updateWorkoutSchema`:
absence is accepted, a present value is checked as in the create
schema. -/
def optNameIssues : FieldVal → List Issue
  | .vMissing => []
  | v => nameIssues v

/-- Issues for the optional `startedAt` field of `updateWorkoutSchema`. -/
def optStartedAtIssues : FieldVal → List Issue
  | .vMissing => []
  | v => startedAtIssues v

/-- The optional string carried by a present-and-valid optional field. -/
def optStr : FieldVal → Option String
  | .vStr s => some s
  | _ => none

/-- The optional timestamp carried by a present-and-valid optional
field. -/
def optDate : FieldVal → Option Int
  | .vDate t => some t
  | _ => none

/-- `updateWorkoutSchema.parse`: validate the three fields in key order
and produce the typed partial-update input on success. -/
def parseUpdate (p : RawUpdatePayload) :
    Except (List Issue) UpdateInput :=
  match p.id, p.name, p.startedAt with
  | .vStr s, n, st =>
    let issues := idIssues (.vStr s) ++ optNameIssues n ++ optStartedAtIssues st
    if issues.isEmpty then .ok ⟨s, optStr n, optDate st⟩ else .error issues
  | i, n, st => .error (idIssues i ++ optNameIssues n ++ optStartedAtIssues st)

/-- Character-list prefix test, auxiliary to the substring test. -/
def chPref : List Char → List Char → Bool
  | [], _ => true
  | _ :: _, [] => false
  | a :: as, b :: bs => a == b && chPref as bs

/-- Character-list substring test, auxiliary to `strIncludes`. -/
def strIncludesAux : List Char → List Char → Bool
  | s, pat =>
    chPref pat s ||
      (match s with
       | [] => false
       | _ :: t => strIncludesAux t pat)

/-- JavaScript's `String.prototype.includes`: does `pat` occur as a
contiguous substring of `s`? -/
def strIncludes (s pat : String) : Bool :=
  strIncludesAux s.toList pat.toList

/-- The security-error test of both actions:
`error.message.includes('Unauthorized') ||
error.message.includes('unauthorized')`. -/
def isSecurityError (msg : String) : Bool :=
  strIncludes msg "Unauthorized" || strIncludes msg "unauthorized"

/-- A value thrown inside the action's `try` block: a `ZodError`
carrying issues, an `Error` carrying a message, or any non-`Error`
value. -/
inductive Thrown where
  | zodErr (issues : List Issue)
  | err (msg : String)
  | other
deriving DecidableEq

/-- The structured result an action returns: `\x7b success: true, data \x7d`,
`\x7b success: false, error: 'Validation failed', issues \x7d`, or
`\x7b success: false, error \x7d`. -/
inductive ActionResult where
  | success (data : Workout)
  | validationFailed (issues : List Issue)
  | failure (error : String)
deriving DecidableEq

/-- The shared `catch` block of `createWorkoutAction` and
`updateWorkoutAction`: a `ZodError` becomes the validation-failure
envelope; an `Error` whose message contains `Unauthorized` or
`unauthorized` becomes the generic permission-denied message; any other
`Error` keeps its own message; a non-`Error` value becomes the generic
unexpected-error message. -/
def handleError : Thrown → ActionResult
  | .zodErr issues => .validationFailed issues
  | .err msg =>
    if isSecurityError msg then
      .failure "You do not have permission to perform this action"
    else
      .failure msg
  | .other => .failure "An unexpected error occurred"

/-- `createWorkoutAction`: parse the payload with `createWorkoutSchema`,
invoke the repository `createWorkout`, and map every outcome through the
`catch` block to a structured result; the store is returned alongside to
make (absence of) mutation observable. -/
def createWorkoutAction (payload : RawCreatePayload) (user : Option User)
    (db : List Workout) (newId : String) (now : Int) :
    ActionResult × List Workout :=
  match parseCreate payload with
  | .error issues => (handleError (.zodErr issues), db)
  | .ok input =>
    match createWorkout user db input newId now with
    | (.ok w, db2) => (.success w, db2)
    | (.error msg, db2) => (handleError (.err msg), db2)

/-- `updateWorkoutAction`: parse the payload with `updateWorkoutSchema`,
invoke the repository `updateWorkout`, and map every outcome through the
`catch` block to a structured result. -/
def updateWorkoutAction (payload : RawUpdatePayload) (user : Option User)
    (db : List Workout) (now : Int) : ActionResult × List Workout :=
  match parseUpdate payload with
  | .error issues => (handleError (.zodErr issues), db)
  | .ok input =>
    match updateWorkout user db input now with
    | (.ok w, db2) => (.success w, db2)
    | (.error msg, db2) => (handleError (.err msg), db2)

/-- Concrete user for witnesses. -/
def userA : User := ⟨"user_a"⟩

/-- Concrete second user for witnesses. -/
def userB : User := ⟨"user_b"⟩

/-- A workout owned by `userA`. -/
def wA : Workout :=
  { id := "11111111-1111-4111-8111-111111111111", userId := "user_a",
    name := "Leg Day", startedAt := 1000, completedAt := none,
    createdAt := 500, updatedAt := 500 }

/-- A workout of `userB` at the last millisecond of day 0. -/
def wEnd : Workout :=
  { id := "22222222-2222-4222-8222-222222222222", userId := "user_b",
    name := "Late Session", startedAt := 86399999, completedAt := none,
    createdAt := 0, updatedAt := 0 }

/-- A workout of `userB` at the first millisecond of day 1. -/
def wNext : Workout :=
  { id := "33333333-3333-4333-8333-333333333333", userId := "user_b",
    name := "Next Day", startedAt := 86400000, completedAt := none,
    createdAt := 0, updatedAt := 0 }

/-- `wA` after a name-only update at time 2000. -/
def wAUpd : Workout :=
  { wA with name := "New Name", updatedAt := 2000 }

/-- C1: ownership isolation — a workout whose `userId` is `a` is never
returned by `getWorkoutById`, `getUserWorkouts` or `listByDate` when the
resolved identity is a distinct user `b`, whatever id is supplied. -/
theorem ownership_isolation (a b : String) (db : List Workout) (w : Workout)
    (wid : String) (d : Int) (hab : a ≠ b) (hw : w.userId = a) :
    getWorkoutById (some ⟨b⟩) db wid ≠ .ok (some w) ∧
    (∀ l, getUserWorkouts (some ⟨b⟩) db = .ok l → w ∉ l) ∧
    (∀ l, listByDate (some ⟨b⟩) db d = .ok l → w ∉ l) := by
  refine ⟨?_, ?_, ?_⟩
  · intro h
    simp only [getWorkoutById, Except.ok.injEq] at h
    have hmem : w ∈ db.filter (fun x => x.id == wid && x.userId == b) :=
      List.mem_of_mem_head? (by rw [h]; rfl)
    have := (List.mem_filter.mp hmem).2
    simp only [Bool.and_eq_true, beq_iff_eq] at this
    exact hab (hw ▸ this.2)
  · intro l h hmem
    simp only [getUserWorkouts, Except.ok.injEq] at h
    rw [← h] at hmem
    have := (List.mem_filter.mp hmem).2
    simp only [beq_iff_eq] at this
    exact hab (hw ▸ this)
  · intro l h hmem
    simp only [listByDate, Except.ok.injEq] at h
    rw [← h] at hmem
    have hmem2 := List.mem_mergeSort.mp hmem
    have := (List.mem_filter.mp hmem2).2
    simp only [Bool.and_eq_true, beq_iff_eq] at this
    exact hab (hw ▸ this.1.1)

/-- Witness for C1 at concrete inputs: `userB` never sees `userA`'s
workout through `getWorkoutById`, even with its valid id. -/
theorem ownership_isolation_witness :
    getWorkoutById (some ⟨"user_b"⟩) [wA]
      "11111111-1111-4111-8111-111111111111" ≠ .ok (some wA) :=
  (ownership_isolation "user_a" "user_b" [wA] wA
    "11111111-1111-4111-8111-111111111111" 0 (by decide) rfl).1

/-- C2: existence-leak prevention — with a resolved user, an id that
belongs only to other users' workouts and an id that matches no stored
workout both make `getWorkoutById` return `ok none`, and the two runs
are indistinguishable. -/
theorem existence_leak_prevention (u : User) (db : List Workout)
    (idA idB : String)
    (hA : ∀ w ∈ db, w.id = idA → w.userId ≠ u.id)
    (hB : ∀ w ∈ db, w.id ≠ idB) :
    getWorkoutById (some u) db idA = .ok none ∧
    getWorkoutById (some u) db idB = .ok none ∧
    getWorkoutById (some u) db idA = getWorkoutById (some u) db idB := by
  have hfA : db.filter (fun x => x.id == idA && x.userId == u.id) = [] := by
    rw [List.filter_eq_nil_iff]
    intro w hwmem
    simp only [Bool.and_eq_true, beq_iff_eq, not_and]
    exact fun hid => hA w hwmem hid
  have hfB : db.filter (fun x => x.id == idB && x.userId == u.id) = [] := by
    rw [List.filter_eq_nil_iff]
    intro w hwmem
    simp only [Bool.and_eq_true, beq_iff_eq, not_and]
    exact fun hid => absurd hid (hB w hwmem)
  refine ⟨?_, ?_, ?_⟩
  · simp [getWorkoutById, hfA]
  · simp [getWorkoutById, hfB]
  · simp [getWorkoutById, hfA, hfB]

/-- Witness for C2 at concrete inputs: `userB` probing `userA`'s valid
id and probing an unknown id gets `ok none` both times. -/
theorem existence_leak_prevention_witness :
    getWorkoutById (some userB) [wA]
      "11111111-1111-4111-8111-111111111111" = .ok none ∧
    getWorkoutById (some userB) [wA] "no-such-id" = .ok none :=
  ⟨(existence_leak_prevention userB [wA]
      "11111111-1111-4111-8111-111111111111" "no-such-id"
      (by decide) (by decide)).1,
   (existence_leak_prevention userB [wA]
      "11111111-1111-4111-8111-111111111111" "no-such-id"
      (by decide) (by decide)).2.1⟩

/-- C3: unauthenticated rejection — every repository operation invoked
with no resolved identity returns the `Unauthorized` failure and leaves
the store exactly as it was (the identity check precedes any storage
access). -/
theorem unauthenticated_rejection (db : List Workout) (wid : String)
    (inp : CreateInput) (uinp : UpdateInput) (newId : String)
    (now d : Int) :
    getUserWorkouts none db = .error "Unauthorized" ∧
    getWorkoutById none db wid = .error "Unauthorized" ∧
    listByDate none db d = .error "Unauthorized" ∧
    createWorkout none db inp newId now = (.error "Unauthorized", db) ∧
    updateWorkout none db uinp now = (.error "Unauthorized", db) :=
  ⟨rfl, rfl, rfl, rfl, rfl⟩

/-- C10: the identity resolver yields `none` on an absent session and on
an empty-string user id, and any resolved identity carries a non-empty
id. -/
theorem identity_resolver_shape :
    getCurrentUser none = none ∧
    getCurrentUser (some "") = none ∧
    (∀ a u, getCurrentUser a = some u → u.id ≠ "") := by
  refine ⟨rfl, rfl, ?_⟩
  intro a u h
  match a with
  | none => exact absurd h (by simp [getCurrentUser])
  | some uid =>
    simp only [getCurrentUser] at h
    by_cases huid : uid == ""
    · rw [if_pos huid] at h; exact absurd h (by simp)
    · rw [if_neg huid] at h
      have : u = ⟨uid⟩ := by injection h with h2; exact h2.symm
      subst this
      simpa using huid

/-- Witness for C10: the identity resolved from the session id
`user_a` has a non-empty id. -/
theorem identity_resolver_shape_witness : (User.mk "user_a").id ≠ "" :=
  identity_resolver_shape.2.2 (some "user_a") (User.mk "user_a") (by decide)

/-- C4: update ownership check — when no stored workout has the given id
with the resolved user as owner, `updateWorkout` fails with the
`Workout not found or unauthorized` error and the store is unchanged
(the check precedes any write). -/
theorem update_ownership_check (u : User) (db : List Workout)
    (input : UpdateInput) (now : Int)
    (h : ∀ w ∈ db, ¬(w.id = input.id ∧ w.userId = u.id)) :
    updateWorkout (some u) db input now =
      (.error "Workout not found or unauthorized", db) := by
  have hf : db.filter (fun w => w.id == input.id && w.userId == u.id) = [] := by
    rw [List.filter_eq_nil_iff]
    intro w hw
    simp only [Bool.and_eq_true, beq_iff_eq]
    exact fun hc => h w hw hc
  simp [updateWorkout, hf]

/-- Witness for C4: `userB` updating `userA`'s workout id fails with the
not-found-or-unauthorized error and `userA`'s row is untouched. -/
theorem update_ownership_check_witness :
    updateWorkout (some userB) [wA]
      ⟨"11111111-1111-4111-8111-111111111111", some "Stolen", none⟩ 2000 =
      (.error "Workout not found or unauthorized", [wA]) :=
  update_ownership_check userB [wA]
    ⟨"11111111-1111-4111-8111-111111111111", some "Stolen", none⟩ 2000
    (by decide)

/-- C5: userId provenance — every created workout is owned by the
resolved identity, for every input; and through the action (whose schema
carries only `name` and `startedAt`) no payload can make the stored
owner differ from the resolved identity. -/
theorem userId_provenance (u : User) (db : List Workout) (newId : String)
    (now : Int) :
    (∀ inp : CreateInput, ∃ w,
      createWorkout (some u) db inp newId now = (.ok w, db ++ [w]) ∧
        w.userId = u.id ∧ w.name = inp.name ∧ w.startedAt = inp.startedAt) ∧
    (∀ (p : RawCreatePayload) (w : Workout) (db2 : List Workout),
      createWorkoutAction p (some u) db newId now = (.success w, db2) →
        w.userId = u.id) := by
  constructor
  · intro inp
    exact ⟨_, rfl, rfl, rfl, rfl⟩
  · intro p w db2 h
    unfold createWorkoutAction at h
    cases hp : parseCreate p with
    | error issues =>
      rw [hp] at h
      simp [handleError] at h
    | ok input =>
      rw [hp] at h
      simp only [createWorkout] at h
      have h1 := congrArg Prod.fst h
      simp only at h1
      injection h1 with h2
      rw [← h2]

/-- Witness for C5: a concrete create by `userB` stores `user_b` as the
owner. -/
theorem userId_provenance_witness :
    (Workout.mk "new-id" "user_b" "Cardio" 7 none 9 9).userId = "user_b" :=
  (userId_provenance userB [] "new-id" 9).2 ⟨.vStr "Cardio", .vDate 7⟩
    (Workout.mk "new-id" "user_b" "Cardio" 7 none 9 9)
    [Workout.mk "new-id" "user_b" "Cardio" 7 none 9 9] (by decide)

/-- C6: create validation — `parseCreate` accepts exactly a string name
of length 1..255 together with a valid date; an empty name produces a
failure citing path `name`; a missing or non-date `startedAt` produces a
failure citing path `startedAt`; and on any validation failure the
action returns the validation envelope without touching the store. -/
theorem create_validation (p : RawCreatePayload) (u : Option User)
    (db : List Workout) (newId : String) (now : Int) :
    (∀ v, parseCreate p = .ok v ↔
      ∃ s t, p.name = .vStr s ∧ 1 ≤ s.length ∧ s.length ≤ 255 ∧
        p.startedAt = .vDate t ∧ v = ⟨s, t⟩) ∧
    (p.name = .vStr "" → ∃ issues, parseCreate p = .error issues ∧
      ∃ i ∈ issues, i.path = "name") ∧
    ((∀ t, p.startedAt ≠ .vDate t) → ∃ issues,
      parseCreate p = .error issues ∧ ∃ i ∈ issues, i.path = "startedAt") ∧
    (∀ issues, parseCreate p = .error issues →
      createWorkoutAction p u db newId now = (.validationFailed issues, db)) := by
  obtain ⟨n, st⟩ := p
  refine ⟨?_, ?_, ?_, ?_⟩
  · intro v
    cases n with
    | vStr s =>
      cases st with
      | vDate t =>
        by_cases h1 : s.length < 1
        · simp [parseCreate, nameIssues, startedAtIssues, List.isEmpty_iff, h1]
        · by_cases h2 : 255 < s.length
          · simp [parseCreate, nameIssues, startedAtIssues, List.isEmpty_iff,
              h1, h2]
          · simp only [parseCreate, nameIssues, startedAtIssues,
              if_neg h1, if_neg h2, List.append_nil, List.isEmpty_nil,
              if_pos, Except.ok.injEq]
            constructor
            · intro hv
              exact ⟨s, t, rfl, by omega, by omega, rfl, hv.symm⟩
            · rintro ⟨s2, t2, hs2, _, _, ht2, hv⟩
              injection hs2 with hs2
              injection ht2 with ht2
              subst hs2; subst ht2; subst hv; rfl
      | vInvalidDate => simp [parseCreate]
      | vMissing => simp [parseCreate]
      | vStr s2 => simp [parseCreate]
    | vDate t => simp [parseCreate]
    | vInvalidDate => simp [parseCreate]
    | vMissing => simp [parseCreate]
  · intro hn
    replace hn : n = FieldVal.vStr "" := hn
    subst hn
    cases st with
    | vDate t =>
      refine ⟨[⟨"name", "Workout name is required"⟩], rfl, ?_⟩
      exact ⟨⟨"name", "Workout name is required"⟩, by simp, rfl⟩
    | vInvalidDate =>
      refine ⟨[⟨"name", "Workout name is required"⟩,
        ⟨"startedAt", "Invalid date"⟩], rfl, ?_⟩
      exact ⟨⟨"name", "Workout name is required"⟩, by simp, rfl⟩
    | vMissing =>
      refine ⟨[⟨"name", "Workout name is required"⟩,
        ⟨"startedAt", "Required"⟩], rfl, ?_⟩
      exact ⟨⟨"name", "Workout name is required"⟩, by simp, rfl⟩
    | vStr s2 =>
      refine ⟨[⟨"name", "Workout name is required"⟩,
        ⟨"startedAt", "Expected date, received string"⟩], rfl, ?_⟩
      exact ⟨⟨"name", "Workout name is required"⟩, by simp, rfl⟩
  · intro hst
    have hne : ∀ t, st ≠ FieldVal.vDate t := fun t h => hst t (by rw [h])
    cases st with
    | vDate t => exact absurd rfl (hne t)
    | vInvalidDate =>
      cases n with
      | vStr s =>
        refine ⟨_, rfl, ⟨"startedAt", "Invalid date"⟩, ?_, rfl⟩
        simp [nameIssues, startedAtIssues]
      | vDate t => exact ⟨_, rfl, ⟨"startedAt", "Invalid date"⟩, by
          simp [nameIssues, startedAtIssues], rfl⟩
      | vInvalidDate => exact ⟨_, rfl, ⟨"startedAt", "Invalid date"⟩, by
          simp [nameIssues, startedAtIssues], rfl⟩
      | vMissing => exact ⟨_, rfl, ⟨"startedAt", "Invalid date"⟩, by
          simp [nameIssues, startedAtIssues], rfl⟩
    | vMissing =>
      cases n with
      | vStr s =>
        refine ⟨_, rfl, ⟨"startedAt", "Required"⟩, ?_, rfl⟩
        simp [nameIssues, startedAtIssues]
      | vDate t => exact ⟨_, rfl, ⟨"startedAt", "Required"⟩, by
          simp [nameIssues, startedAtIssues], rfl⟩
      | vInvalidDate => exact ⟨_, rfl, ⟨"startedAt", "Required"⟩, by
          simp [nameIssues, startedAtIssues], rfl⟩
      | vMissing => exact ⟨_, rfl, ⟨"startedAt", "Required"⟩, by
          simp [nameIssues, startedAtIssues], rfl⟩
    | vStr s2 =>
      cases n with
      | vStr s =>
        refine ⟨_, rfl, ⟨"startedAt", "Expected date, received string"⟩, ?_, rfl⟩
        simp [nameIssues, startedAtIssues]
      | vDate t => exact ⟨_, rfl,
          ⟨"startedAt", "Expected date, received string"⟩, by
          simp [nameIssues, startedAtIssues], rfl⟩
      | vInvalidDate => exact ⟨_, rfl,
          ⟨"startedAt", "Expected date, received string"⟩, by
          simp [nameIssues, startedAtIssues], rfl⟩
      | vMissing => exact ⟨_, rfl,
          ⟨"startedAt", "Expected date, received string"⟩, by
          simp [nameIssues, startedAtIssues], rfl⟩
  · intro issues hp
    unfold createWorkoutAction
    rw [hp]
    rfl

/-- Witness for C6: the empty-name payload is rejected with an issue at
path `name`. -/
theorem create_validation_witness :
    ∃ issues, parseCreate ⟨.vStr "", .vDate 5⟩ = .error issues ∧
      ∃ i ∈ issues, i.path = "name" :=
  (create_validation ⟨.vStr "", .vDate 5⟩ (some userA) [] "id0" 0).2.1 rfl

/-- C7: dispatcher totality and failure mapping — both actions always
return a structured result; a `ZodError` becomes the validation
envelope; an error message signalling unauthenticated/unauthorized
(which both repository failure messages do) is replaced by the generic
permission-denied string; any other error keeps its own message; a
non-`Error` thrown value becomes the generic unexpected-error message;
and an unauthenticated run of either action returns the generic
permission-denied failure. -/
theorem dispatcher_failure_mapping :
    (∀ issues, handleError (.zodErr issues) = .validationFailed issues) ∧
    (∀ msg, isSecurityError msg = true → handleError (.err msg) =
      .failure "You do not have permission to perform this action") ∧
    (∀ msg, isSecurityError msg = false →
      handleError (.err msg) = .failure msg) ∧
    (handleError .other = .failure "An unexpected error occurred") ∧
    isSecurityError "Unauthorized" = true ∧
    isSecurityError "Workout not found or unauthorized" = true ∧
    (∀ p u db newId now, ∃ r db2,
      createWorkoutAction p u db newId now = (r, db2)) ∧
    (∀ p u db now, ∃ r db2, updateWorkoutAction p u db now = (r, db2)) ∧
    (∀ p v db newId now, parseCreate p = .ok v →
      createWorkoutAction p none db newId now =
        (.failure "You do not have permission to perform this action", db)) ∧
    (∀ p v db now, parseUpdate p = .ok v →
      updateWorkoutAction p none db now =
        (.failure "You do not have permission to perform this action", db)) := by
  refine ⟨fun issues => rfl, ?_, ?_, rfl, by decide, by decide, ?_, ?_, ?_, ?_⟩
  · intro msg h
    simp [handleError, h]
  · intro msg h
    simp [handleError, h]
  · intro p u db newId now
    exact ⟨_, _, rfl⟩
  · intro p u db now
    exact ⟨_, _, rfl⟩
  · intro p v db newId now hp
    unfold createWorkoutAction
    rw [hp]
    rfl
  · intro p v db now hp
    unfold updateWorkoutAction
    rw [hp]
    rfl

/-- Witness for C7: an unauthenticated create with a valid payload gets
the generic permission-denied failure and mutates nothing. -/
theorem dispatcher_failure_mapping_witness :
    createWorkoutAction ⟨.vStr "Leg Day", .vDate 0⟩ none [] "id1" 0 =
      (.failure "You do not have permission to perform this action", []) :=
  dispatcher_failure_mapping.2.2.2.2.2.2.2.2.1
    ⟨.vStr "Leg Day", .vDate 0⟩ ⟨"Leg Day", 0⟩ [] "id1" 0 rfl

/-- Auxiliary: the head of a nonempty list all of whose elements are `a`
is `a`. -/
theorem head?_of_mem_of_all {α : Type} (l : List α) (a : α) (hmem : a ∈ l)
    (hall : ∀ x ∈ l, x = a) : l.head? = some a := by
  cases l with
  | nil => cases hmem
  | cons b t =>
    simp only [List.head?_cons, Option.some.injEq]
    exact hall b (List.mem_cons_self b t)

/-- C8: partial-update frame — a name-only update by the owner succeeds,
changes only `name`, leaves `startedAt`, `completedAt`, `createdAt`,
`userId` and `id` unchanged, refreshes `updatedAt` to a strictly later
timestamp, and rewrites no other row. -/
theorem name_only_update_frame (u : User) (db : List Workout) (w : Workout)
    (newName : String) (now : Int)
    (hmem : w ∈ db) (hown : w.userId = u.id)
    (huniq : ∀ v ∈ db, v.id = w.id → v = w)
    (htime : w.updatedAt < now) :
    ∃ w', updateWorkout (some u) db ⟨w.id, some newName, none⟩ now =
        (.ok w', db.map (fun v => if v.id == w.id then w' else v)) ∧
      w'.id = w.id ∧ w'.userId = w.userId ∧ w'.name = newName ∧
      w'.startedAt = w.startedAt ∧ w'.completedAt = w.completedAt ∧
      w'.createdAt = w.createdAt ∧ w'.updatedAt = now ∧
      w.updatedAt < w'.updatedAt := by
  set input : UpdateInput := ⟨w.id, some newName, none⟩ with hinput
  set w' : Workout := applyUpdate w input now with hw'
  have hfilter1 :
      (db.filter (fun x => x.id == input.id && x.userId == u.id)).head? =
        some w := by
    apply head?_of_mem_of_all
    · exact List.mem_filter.mpr ⟨hmem, by simp [hinput, hown]⟩
    · intro x hx
      obtain ⟨hxdb, hxp⟩ := List.mem_filter.mp hx
      simp only [Bool.and_eq_true, beq_iff_eq, hinput] at hxp
      exact huniq x hxdb hxp.1
  have hmapeq : db.map (fun v => if v.id == input.id then
      applyUpdate v input now else v) =
      db.map (fun v => if v.id == w.id then w' else v) := by
    apply List.map_congr_left
    intro v hv
    by_cases hid : v.id = w.id
    · have hvw : v = w := huniq v hv hid
      subst hvw
      simp [hinput, hw']
    · simp [hinput, hid]
  have hfilter2 :
      ((db.map (fun v => if v.id == w.id then w' else v)).filter
        (fun x => x.id == input.id)).head? = some w' := by
    apply head?_of_mem_of_all
    · refine List.mem_filter.mpr ⟨List.mem_map.mpr ⟨w, hmem, by simp⟩, ?_⟩
      simp [hw', hinput, applyUpdate]
    · intro x hx
      obtain ⟨hxdb, hxp⟩ := List.mem_filter.mp hx
      obtain ⟨v, hvdb, hvx⟩ := List.mem_map.mp hxdb
      by_cases hid : v.id = w.id
      · rw [if_pos (by simp [hid])] at hvx
        exact hvx.symm
      · rw [if_neg (by simp [hid])] at hvx
        subst hvx
        simp only [beq_iff_eq, hinput] at hxp
        exact absurd hxp hid
  refine ⟨w', ?_, by simp [hw', applyUpdate], by simp [hw', applyUpdate],
    by simp [hw', applyUpdate, hinput], by simp [hw', applyUpdate, hinput],
    by simp [hw', applyUpdate], by simp [hw', applyUpdate],
    by simp [hw', applyUpdate], by simp [hw', applyUpdate]; omega⟩
  simp only [updateWorkout, hfilter1, hmapeq, hfilter2]

/-- Witness for C8: a concrete name-only update by the owner produces
exactly the renamed row with `startedAt` untouched and a strictly later
`updatedAt`. -/
theorem name_only_update_frame_witness :
    updateWorkout (some userA) [wA]
      ⟨"11111111-1111-4111-8111-111111111111", some "New Name", none⟩ 2000 =
      (.ok wAUpd, [wAUpd]) ∧ wAUpd.startedAt = wA.startedAt ∧
      wA.updatedAt < wAUpd.updatedAt := by
  obtain ⟨w', heq, hid, huid, hname, hst, hcomp, hcre, hupd, hlt⟩ :=
    name_only_update_frame userA [wA] wA "New Name" 2000
      (List.mem_singleton.mpr rfl) rfl (by decide) (by decide)
  have hcalc : updateWorkout (some userA) [wA]
      ⟨"11111111-1111-4111-8111-111111111111", some "New Name", none⟩ 2000 =
      (.ok wAUpd, [wAUpd]) := rfl
  have hpair := heq.symm.trans hcalc
  have hfst := congrArg Prod.fst hpair
  simp only at hfst
  injection hfst with hww
  exact ⟨hcalc, by rw [← hww]; exact hst, by rw [← hww]; exact hlt⟩

/-- C9: date-window correctness — for a resolved user, the date-scoped
listing returns `ok` of exactly the user's workouts with `startedAt` in
the inclusive window from local midnight to 86399999 ms later, ordered
ascending by `startedAt`; the last millisecond of the day is included
and the first millisecond of the next day is excluded; no match yields
the empty list, not an error. -/
theorem date_window (u : User) (db : List Workout) (dayStart : Int) :
    ∃ l, listByDate (some u) db dayStart = .ok l ∧
      (∀ w, w ∈ l ↔ (w ∈ db ∧ w.userId = u.id ∧ dayStart ≤ w.startedAt ∧
        w.startedAt ≤ dayStart + 86399999)) ∧
      List.Pairwise (fun a b => a.startedAt ≤ b.startedAt) l ∧
      (∀ w, w ∈ db → w.userId = u.id → w.startedAt = dayStart + 86399999 →
        w ∈ l) ∧
      (∀ w, w.startedAt = dayStart + 86400000 → w ∉ l) := by
  have hiff : ∀ w, (w ∈ (db.filter (fun w =>
      w.userId == u.id && decide (dayStart ≤ w.startedAt) &&
        decide (w.startedAt ≤ dayStart + (msPerDay - 1)))).mergeSort
          leStartedAt ↔
      (w ∈ db ∧ w.userId = u.id ∧ dayStart ≤ w.startedAt ∧
        w.startedAt ≤ dayStart + 86399999)) := by
    intro w
    rw [List.mem_mergeSort, List.mem_filter]
    simp [msPerDay, and_assoc]
  refine ⟨_, rfl, hiff, ?_, ?_, ?_⟩
  · have h := @List.sorted_mergeSort Workout leStartedAt
      (fun a b c hab hbc => by
        simp only [leStartedAt, decide_eq_true_eq] at *; omega)
      (fun a b => by
        simp only [leStartedAt, Bool.or_eq_true, decide_eq_true_eq]; omega)
      (db.filter (fun w =>
        w.userId == u.id && decide (dayStart ≤ w.startedAt) &&
          decide (w.startedAt ≤ dayStart + (msPerDay - 1))))
    exact h.imp (fun hab => by simpa [leStartedAt] using hab)
  · intro w hw hu hst
    exact (hiff w).mpr ⟨hw, hu, by omega, by omega⟩
  · intro w hst hmem
    have h2 := ((hiff w).mp hmem).2.2.2
    omega

/-- Witness for C9: for `userB` on day 0, the workout at 23:59:59.999 is
listed and the workout at the next day's 00:00:00.000 is not. -/
theorem date_window_witness :
    listByDate (some userB) [wEnd, wNext] 0 = .ok [wEnd] ∧
      wEnd ∈ [wEnd] := by
  obtain ⟨l, hl, hiff2, hsort, hin, hout⟩ := date_window userB [wEnd, wNext] 0
  have hmem : wEnd ∈ l := hin wEnd (by decide) (by decide) (by decide)
  have hcalc : listByDate (some userB) [wEnd, wNext] 0 = .ok [wEnd] := by
    have hf : ([wEnd, wNext].filter (fun w =>
        w.userId == userB.id && decide ((0:Int) ≤ w.startedAt) &&
          decide (w.startedAt ≤ msPerDay - 1))) = [wEnd] := by decide
    simp [listByDate, hf, List.mergeSort_singleton]
  refine ⟨hcalc, ?_⟩
  have hll := hl.symm.trans hcalc
  injection hll with h2
  rw [h2] at hmem
  exact hmem
